import Mathlib

/-!
Shallow embedding of the git-commit-manager extension's core logic:

* the unpushed-commit resolution chain of `GitTreeViewProvider`
  (`getChildren` root case and `getChildrenForElement` for the
  `unpushed-commits` element), embedded as `resolveChain` /
  `resolveRun` / `resolveTopRun` over a `GitRepo` oracle that records
  the outcome of each underlying `simple-git` query;
* the commit-composer webview's commit-button handlers and the
  extension-side `handleCommit` from `commitEditor.ts`;
* the `editCommitDate` command from the extension entry point, which
  rewrites a commit's author/committer dates via `git filter-branch`.

External git queries are modelled as oracle fields of type
`Except String _`: `Except.error e` stands for the underlying call
throwing with message `e`, `Except.ok v` for it resolving with `v`.
Functions additionally return the trace of git invocations they issue
(`GitCall`), so that read-only/mutation claims can be stated.
-/

/-- Record returned by the git log queries: hash, message, date. -/
structure Commit where
  hash : String
  message : String
  date : String
deriving DecidableEq, Repr

/-- One invocation of the external git tool, as issued by this extension. -/
inductive GitCall where
  | getRemotes
  | log (args : List String)
  | branch (args : List String)
  | statusCall
  | show (args : List String)
  | add (files : List String)
  | commit (message : String) (date : Option String)
  | reset (args : List String)
  | push
  | raw (args : List String)
deriving DecidableEq, Repr

/-- A git call is read-only iff it cannot change repository state.
`raw` is the `filter-branch` history rewrite, hence mutating. -/
def isReadOnly : GitCall → Bool
  | GitCall.getRemotes => true
  | GitCall.log _ => true
  | GitCall.branch _ => true
  | GitCall.statusCall => true
  | GitCall.show _ => true
  | GitCall.add _ => false
  | GitCall.commit _ _ => false
  | GitCall.reset _ => false
  | GitCall.push => false
  | GitCall.raw _ => false

/-- A git call is a history-rewrite request (the extension only ever uses
`git.raw` for `filter-branch`). -/
def isRewrite : GitCall → Bool
  | GitCall.raw _ => true
  | _ => false

/-- Prefix test on character lists, used to embed JavaScript's
`String.prototype.includes`. -/
def isPrefixOfChars : List Char → List Char → Bool
  | [], _ => true
  | _ :: _, [] => false
  | a :: as, b :: bs => a = b && isPrefixOfChars as bs

/-- Substring occurrence test on character lists. -/
def containsChars (pat : List Char) : List Char → Bool
  | [] => List.isEmpty pat
  | c :: rest => isPrefixOfChars pat (c :: rest) || containsChars pat rest

/-- Embedding of JavaScript's `s.includes(pat)` substring test. -/
def includesSub (s pat : String) : Bool :=
  containsChars pat.data s.data

/-- Oracle for the external `simple-git` binding, one field per query the
resolver can issue.  `logRange r` is `git.log([r])` for a range expression
`r` such as `"origin/main..HEAD"`; `branchesR` is `git.branch(['-r']).all`;
`logRecent n` is `git.log(['--oneline', '-n'])`. -/
structure GitRepo where
  remotes : Except String (List String)
  logRange : String → Except String (List Commit)
  branchesR : Except String (List String)
  logRecent : Nat → Except String (List Commit)

/-- Embedding of the unpushed-commit fallback chain shared by
`getChildren` and `getChildrenForElement` in the tree view provider
(from `getRemotes()` up to but excluding the enclosing top-level catch).
Returns the chain's outcome — `Except.error` exactly when an exception
escapes the nested try/catch structure — together with the trace of git
calls issued.  Mirrors the source: try `origin/main..HEAD`; on error try
`origin/master..HEAD`; on error list remote branches and compare against
the first branch whose name includes `origin/` (if none is found the
commit list stays empty); if that step throws, fall back to
`log ['--oneline', '-10']`, whose own failure escapes to the caller. -/
def resolveChain (g : GitRepo) : Except String (List Commit) × List GitCall :=
  match g.remotes with
  | Except.error e => (Except.error e, [GitCall.getRemotes])
  | Except.ok rs =>
    if rs.length > 0 then
      match g.logRange "origin/main..HEAD" with
      | Except.ok cs =>
        (Except.ok cs, [GitCall.getRemotes, GitCall.log ["origin/main..HEAD"]])
      | Except.error _ =>
        match g.logRange "origin/master..HEAD" with
        | Except.ok cs =>
          (Except.ok cs,
            [GitCall.getRemotes, GitCall.log ["origin/main..HEAD"],
             GitCall.log ["origin/master..HEAD"]])
        | Except.error _ =>
          match g.branchesR with
          | Except.ok bs =>
            match bs.find? (fun b => includesSub b "origin/") with
            | some db =>
              match g.logRange (db ++ "..HEAD") with
              | Except.ok cs =>
                (Except.ok cs,
                  [GitCall.getRemotes, GitCall.log ["origin/main..HEAD"],
                   GitCall.log ["origin/master..HEAD"], GitCall.branch ["-r"],
                   GitCall.log [db ++ "..HEAD"]])
              | Except.error _ =>
                match g.logRecent 10 with
                | Except.ok cs =>
                  (Except.ok cs,
                    [GitCall.getRemotes, GitCall.log ["origin/main..HEAD"],
                     GitCall.log ["origin/master..HEAD"], GitCall.branch ["-r"],
                     GitCall.log [db ++ "..HEAD"], GitCall.log ["--oneline", "-10"]])
                | Except.error e =>
                  (Except.error e,
                    [GitCall.getRemotes, GitCall.log ["origin/main..HEAD"],
                     GitCall.log ["origin/master..HEAD"], GitCall.branch ["-r"],
                     GitCall.log [db ++ "..HEAD"], GitCall.log ["--oneline", "-10"]])
            | none =>
              (Except.ok [],
                [GitCall.getRemotes, GitCall.log ["origin/main..HEAD"],
                 GitCall.log ["origin/master..HEAD"], GitCall.branch ["-r"]])
          | Except.error _ =>
            match g.logRecent 10 with
            | Except.ok cs =>
              (Except.ok cs,
                [GitCall.getRemotes, GitCall.log ["origin/main..HEAD"],
                 GitCall.log ["origin/master..HEAD"], GitCall.branch ["-r"],
                 GitCall.log ["--oneline", "-10"]])
            | Except.error e =>
              (Except.error e,
                [GitCall.getRemotes, GitCall.log ["origin/main..HEAD"],
                 GitCall.log ["origin/master..HEAD"], GitCall.branch ["-r"],
                 GitCall.log ["--oneline", "-10"]])
    else
      match g.logRecent 10 with
      | Except.ok cs =>
        (Except.ok cs, [GitCall.getRemotes, GitCall.log ["--oneline", "-10"]])
      | Except.error e =>
        (Except.error e, [GitCall.getRemotes, GitCall.log ["--oneline", "-10"]])

/-- Embedding of the `unpushed-commits` case of `getChildrenForElement`:
the chain wrapped in a catch that returns the empty list. -/
def resolveRun (g : GitRepo) : List Commit × List GitCall :=
  match resolveChain g with
  | (Except.ok cs, t) => (cs, t)
  | (Except.error _, t) => ([], t)

/-- Commit sequence produced when expanding the unpushed-commits element. -/
def resolve (g : GitRepo) : List Commit :=
  (resolveRun g).1

/-- Embedding of the unpushed-commit section of the root `getChildren`:
the same chain, but its top-level catch retries with
`git.log(['--oneline', '-5'])` and swallows a failure of that final
query (no items are produced). -/
def resolveTopRun (g : GitRepo) : List Commit × List GitCall :=
  match resolveChain g with
  | (Except.ok cs, t) => (cs, t)
  | (Except.error _, t) =>
    match g.logRecent 5 with
    | Except.ok cs => (cs, t ++ [GitCall.log ["--oneline", "-5"]])
    | Except.error _ => ([], t ++ [GitCall.log ["--oneline", "-5"]])

/-- Commit sequence resolved by the root tree view. -/
def resolveTop (g : GitRepo) : List Commit :=
  (resolveTopRun g).1

/-- Embedding of JavaScript truthiness for an optional string argument
(`undefined`/`null` and the empty string are falsy). -/
def jsTruthy : Option String → Bool
  | none => false
  | some s => s ≠ ""

/-- Drop leading whitespace characters from a character list. -/
def dropLeadingWs : List Char → List Char
  | [] => []
  | c :: cs => if c.isWhitespace then dropLeadingWs cs else c :: cs

/-- Embedding of JavaScript's `s.trim()`: strip whitespace from both ends. -/
def jsTrim (s : String) : String :=
  String.mk (dropLeadingWs (dropLeadingWs s.data.reverse).reverse)

/-- Message posted from the commit-composer webview to the extension host. -/
inductive WebMsg where
  | getStatus
  | commitMsg (commitMessage : String) (files : List String) (commitDate : Option String)
  | pushMsg
deriving DecidableEq, Repr

/-- Outcome of a click on one of the webview's commit buttons: either a
validation message rendered in the webview, or a message posted to the
extension host. -/
inductive ClickResult where
  | showError (msg : String)
  | posted (m : WebMsg)
deriving DecidableEq, Repr

/-- Embedding of the `commit-btn` click handler in the commit-composer
webview script: trims the message, rejects an empty message, then
rejects an empty selected-file set, otherwise posts the `commit`
message (an empty date field is sent as `null`). -/
def commitBtnClick (rawMessage : String) (selectedFiles : List String)
    (commitDateField : String) : ClickResult :=
  let commitMessage := jsTrim rawMessage
  if commitMessage = "" then
    ClickResult.showError "コミットメッセージを入力してください"
  else if selectedFiles.length = 0 then
    ClickResult.showError "コミットするファイルを選択してください"
  else
    ClickResult.posted (WebMsg.commitMsg commitMessage selectedFiles
      (if commitDateField = "" then none else some commitDateField))

/-- Embedding of the `commit-all-btn` click handler: identical shape, but
over the list of all listed files rather than the checked ones. -/
def commitAllBtnClick (rawMessage : String) (allFiles : List String)
    (commitDateField : String) : ClickResult :=
  let commitMessage := jsTrim rawMessage
  if commitMessage = "" then
    ClickResult.showError "コミットメッセージを入力してください"
  else if allFiles.length = 0 then
    ClickResult.showError "コミットするファイルがありません"
  else
    ClickResult.posted (WebMsg.commitMsg commitMessage allFiles
      (if commitDateField = "" then none else some commitDateField))

/-- Git calls issued by `CommitEditorProvider.handleCommit` for a `commit`
message: `git.add(files)` when the file list is non-empty, then
`git.commit` (with `--date` when a truthy date is present). -/
def handleCommitCalls (commitMessage : String) (files : List String)
    (commitDate : Option String) : List GitCall :=
  (if files.length > 0 then [GitCall.add files] else []) ++
    (if jsTruthy commitDate then
      [GitCall.commit commitMessage commitDate]
    else
      [GitCall.commit commitMessage none])

/-- Git calls reaching the external tool for one commit-button click:
the webview validation either blocks the request or forwards it to
`handleCommit`. -/
def commitRequestCalls (rawMessage : String) (selectedFiles : List String)
    (commitDateField : String) : List GitCall :=
  match commitBtnClick rawMessage selectedFiles commitDateField with
  | ClickResult.showError _ => []
  | ClickResult.posted (WebMsg.commitMsg m fs d) => handleCommitCalls m fs d
  | ClickResult.posted _ => []

/-- Git calls reaching the external tool for one commit-all-button click. -/
def commitAllRequestCalls (rawMessage : String) (allFiles : List String)
    (commitDateField : String) : List GitCall :=
  match commitAllBtnClick rawMessage allFiles commitDateField with
  | ClickResult.showError _ => []
  | ClickResult.posted (WebMsg.commitMsg m fs d) => handleCommitCalls m fs d
  | ClickResult.posted _ => []

/-- Message shown to the user by the editor host (information or error). -/
inductive UserMsg where
  | info (m : String)
  | error (m : String)
deriving DecidableEq, Repr

/-- The `--env-filter` script built by the `editCommitDate` command:
matches the target commit by exact hash and, on match, exports both
`GIT_AUTHOR_DATE` and `GIT_COMMITTER_DATE` set to the new date. -/
def envFilterScript (commitHash newDate : String) : String :=
  "if [ $GIT_COMMIT = " ++ commitHash ++ " ]" ++ "; then " ++
    "export GIT_AUTHOR_DATE=\"" ++ newDate ++ "\"" ++ "; " ++
    "export GIT_COMMITTER_DATE=\"" ++ newDate ++ "\"" ++ "; fi"

/-- The single `git.raw` invocation issued by `editCommitDate`:
`filter-branch` with the env filter, applied to `--all` refs. -/
def filterBranchCall (commitHash newDate : String) : GitCall :=
  GitCall.raw ["filter-branch", "--env-filter",
    envFilterScript commitHash newDate, "--", "--all"]

/-- Embedding of the `git-commit-manager.editCommitDate` command handler
(after workspace lookup).  `currentDate` is the optional date argument
passed with the tree item; when it is falsy the handler first issues a
read-only `git.show` to fetch it (its result only feeds the prompt's
display text).  `userInput` is the input-box result: `none` models
cancellation; an empty string is likewise falsy and returns early.
Otherwise the `filter-branch` rewrite is issued unconditionally —
`toolResult` is the external tool's outcome — and the handler reports
success or surfaces the tool's error text. -/
def editCommitDateRun (commitHash : String) (currentDate : Option String)
    (userInput : Option String) (toolResult : Except String Unit) :
    List GitCall × List UserMsg :=
  let showCalls : List GitCall :=
    if jsTruthy currentDate then []
    else [GitCall.show ["--format=%ci", "-s", commitHash]]
  match userInput with
  | none => (showCalls, [])
  | some nd =>
    if nd = "" then (showCalls, [])
    else
      match toolResult with
      | Except.ok _ =>
        (showCalls ++ [filterBranchCall commitHash nd],
          [UserMsg.info ("コミット " ++ commitHash.take 7 ++ " の時間を更新しました")])
      | Except.error e =>
        (showCalls ++ [filterBranchCall commitHash nd],
          [UserMsg.error ("コミット時間編集エラー: " ++ e)])

theorem dataAppend (a b : String) : (a ++ b).data = a.data ++ b.data := rfl

theorem isPrefixOfCharsAppendSelf (p t : List Char) :
    isPrefixOfChars p (p ++ t) = true := by
  induction p with
  | nil => rfl
  | cons a as ih => simp [isPrefixOfChars, ih]

theorem containsCharsNil (s : List Char) : containsChars [] s = true := by
  cases s <;> simp [containsChars, isPrefixOfChars, List.isEmpty]

theorem containsCharsAppendSelf (p t : List Char) :
    containsChars p (p ++ t) = true := by
  cases p with
  | nil => exact containsCharsNil t
  | cons a as =>
    simp [containsChars, isPrefixOfChars, isPrefixOfCharsAppendSelf]

theorem containsCharsAppendLeft (pre p s : List Char)
    (h : containsChars p s = true) : containsChars p (pre ++ s) = true := by
  induction pre with
  | nil => exact h
  | cons c cs ih => simp [containsChars, ih]

theorem includesSubOfSplit (s pre pat post : String)
    (h : s.data = pre.data ++ (pat.data ++ post.data)) :
    includesSub s pat = true := by
  unfold includesSub
  rw [h]
  exact containsCharsAppendLeft pre.data pat.data (pat.data ++ post.data)
    (containsCharsAppendSelf pat.data post.data)

/-- C3: a commit request whose selected-files list is empty is rejected in
the webview before any external git command (`add` or `commit`) is
invoked: no git call is issued — so no repository state changes — and a
user-visible validation message is shown.  This holds for both commit
buttons (the only producers of `commit` messages), whatever the typed
commit message and date field. -/
theorem emptySelectionRejected (rawMessage : String) (dateField : String) :
    commitRequestCalls rawMessage [] dateField = [] ∧
    commitAllRequestCalls rawMessage [] dateField = [] ∧
    (∃ m, commitBtnClick rawMessage [] dateField = ClickResult.showError m) ∧
    (∃ m, commitAllBtnClick rawMessage [] dateField = ClickResult.showError m) := by
  unfold commitRequestCalls commitAllRequestCalls commitBtnClick commitAllBtnClick
  by_cases h : jsTrim rawMessage = "" <;> simp [h]

/-- C10: if the timestamp prompt is cancelled (`none`) or an empty string
is submitted, the edit-commit-date command returns without issuing any
history-rewrite request, shows no message, and every git call it did
issue (at most the read-only `git show` used to display the current
date) is read-only — so repository state is unchanged. -/
theorem cancelOrEmptyNoRewrite (commitHash : String) (currentDate : Option String)
    (toolResult : Except String Unit) :
    (editCommitDateRun commitHash currentDate none toolResult).1.filter isRewrite = [] ∧
    (editCommitDateRun commitHash currentDate (some "") toolResult).1.filter isRewrite = [] ∧
    (editCommitDateRun commitHash currentDate none toolResult).2 = [] ∧
    (editCommitDateRun commitHash currentDate (some "") toolResult).2 = [] ∧
    (editCommitDateRun commitHash currentDate none toolResult).1.all isReadOnly = true ∧
    (editCommitDateRun commitHash currentDate (some "") toolResult).1.all isReadOnly = true := by
  unfold editCommitDateRun
  by_cases h : jsTruthy currentDate <;>
    simp [h, isRewrite, isReadOnly]

theorem dataNil : ("" : String).data = [] := rfl

/-- C4: for every commit hash and non-empty timestamp entered,
`editCommitDate` issues exactly one history-rewrite request — a
`filter-branch` invocation scoped across all branches via `--all` —
whose `--env-filter` script matches the target commit by exact hash
(`if [ $GIT_COMMIT = <hash> ]`) and, on match, sets both
`GIT_AUTHOR_DATE` and `GIT_COMMITTER_DATE` to the given timestamp. -/
theorem rewriteCommandShape (commitHash nd : String) (currentDate : Option String)
    (toolResult : Except String Unit) (hne : nd ≠ "") :
    (editCommitDateRun commitHash currentDate (some nd) toolResult).1.filter isRewrite =
      [GitCall.raw ["filter-branch", "--env-filter",
        envFilterScript commitHash nd, "--", "--all"]] ∧
    includesSub (envFilterScript commitHash nd)
      ("if [ $GIT_COMMIT = " ++ commitHash ++ " ]") = true ∧
    includesSub (envFilterScript commitHash nd)
      ("export GIT_AUTHOR_DATE=\"" ++ nd ++ "\"") = true ∧
    includesSub (envFilterScript commitHash nd)
      ("export GIT_COMMITTER_DATE=\"" ++ nd ++ "\"") = true := by
  refine ⟨?_, ?_, ?_, ?_⟩
  · unfold editCommitDateRun filterBranchCall
    cases toolResult <;> by_cases hc : jsTruthy currentDate <;>
      simp [hne, hc, isRewrite]
  · exact includesSubOfSplit _ ""
      ("if [ $GIT_COMMIT = " ++ commitHash ++ " ]")
      ("; then " ++ "export GIT_AUTHOR_DATE=\"" ++ nd ++ "\"" ++ "; " ++
        "export GIT_COMMITTER_DATE=\"" ++ nd ++ "\"" ++ "; fi")
      (by simp [envFilterScript, dataAppend, dataNil, List.append_assoc])
  · exact includesSubOfSplit _
      ("if [ $GIT_COMMIT = " ++ commitHash ++ " ]" ++ "; then ")
      ("export GIT_AUTHOR_DATE=\"" ++ nd ++ "\"")
      ("; " ++ "export GIT_COMMITTER_DATE=\"" ++ nd ++ "\"" ++ "; fi")
      (by simp [envFilterScript, dataAppend, List.append_assoc])
  · exact includesSubOfSplit _
      ("if [ $GIT_COMMIT = " ++ commitHash ++ " ]" ++ "; then " ++
        "export GIT_AUTHOR_DATE=\"" ++ nd ++ "\"" ++ "; ")
      ("export GIT_COMMITTER_DATE=\"" ++ nd ++ "\"")
      ("; fi")
      (by simp [envFilterScript, dataAppend, List.append_assoc])

/-- C4 witness: concrete instantiation at hash `abc1234def` and timestamp
`2024-01-01 12:00:00`. -/
theorem rewriteCommandShapeWitness :
    (editCommitDateRun "abc1234def" (some "2023-05-05 00:00:00")
        (some "2024-01-01 12:00:00") (Except.ok ())).1.filter isRewrite =
      [GitCall.raw ["filter-branch", "--env-filter",
        envFilterScript "abc1234def" "2024-01-01 12:00:00", "--", "--all"]] :=
  (rewriteCommandShape "abc1234def" "2024-01-01 12:00:00"
    (some "2023-05-05 00:00:00") (Except.ok ()) (by decide)).1

/-- C9: for every non-empty timestamp string entered, `editCommitDate`
performs no format validation before submitting the rewrite: whatever
the string's content, exactly one `filter-branch` request is issued
(the issuing is independent of the tool's verdict); and when the
external tool rejects it with error text `e`, the user sees exactly one
error message, which contains `e`. -/
theorem timestampNotValidated (commitHash nd e : String) (currentDate : Option String)
    (hne : nd ≠ "") :
    (∀ toolResult : Except String Unit,
      ((editCommitDateRun commitHash currentDate (some nd) toolResult).1.filter
        isRewrite).length = 1) ∧
    (editCommitDateRun commitHash currentDate (some nd) (Except.error e)).2 =
      [UserMsg.error ("コミット時間編集エラー: " ++ e)] ∧
    includesSub ("コミット時間編集エラー: " ++ e) e = true := by
  refine ⟨?_, ?_, ?_⟩
  · intro toolResult
    unfold editCommitDateRun
    cases toolResult <;> by_cases hc : jsTruthy currentDate <;>
      simp [hne, hc, isRewrite, filterBranchCall]
  · unfold editCommitDateRun
    simp [hne]
  · refine includesSubOfSplit _ "コミット時間編集エラー: " e "" ?_
    simp [dataAppend, dataNil]

/-- C9 witness: the malformed timestamp `not-a-date` is still submitted,
and the tool's error text appears in the surfaced message. -/
theorem timestampNotValidatedWitness :
    (editCommitDateRun "abc1234def" (some "2023-05-05 00:00:00")
        (some "not-a-date") (Except.error "fatal: invalid date")).2 =
      [UserMsg.error ("コミット時間編集エラー: " ++ "fatal: invalid date")] :=
  (timestampNotValidated "abc1234def" "not-a-date" "fatal: invalid date"
    (some "2023-05-05 00:00:00") (by decide)).2.1

/-- C1: for a repository with at least one configured remote whose
`origin/main..HEAD` log query succeeds, both resolution sites return
exactly that query's commit sequence (the oracle returns it newest
first, as `git log` does), and the trace shows no further fallback was
attempted — only `getRemotes` and the single log query ran, even when
the returned set is empty. -/
theorem resolveOriginMain (g : GitRepo) (rs : List String) (cs : List Commit)
    (hr : g.remotes = Except.ok rs) (hne : rs ≠ [])
    (hm : g.logRange "origin/main..HEAD" = Except.ok cs) :
    resolve g = cs ∧ resolveTop g = cs ∧
    (resolveRun g).2 = [GitCall.getRemotes, GitCall.log ["origin/main..HEAD"]] := by
  have hlen : rs.length > 0 := by
    cases rs with
    | nil => exact absurd rfl hne
    | cons a as => simp
  unfold resolve resolveTop resolveRun resolveTopRun resolveChain
  rw [hr, hm]
  simp [hlen]

/-- Sample commits for witnesses, newest first as `git log` returns them. -/
def cNew : Commit := ⟨"c3333333", "third", "2024-01-03 10:00:00 +0900"⟩

def cMid : Commit := ⟨"c2222222", "second", "2024-01-02 10:00:00 +0900"⟩

def cOld : Commit := ⟨"c1111111", "first", "2024-01-01 10:00:00 +0900"⟩

/-- Repository with a remote and an existing `origin/main`, two commits
ahead. -/
def repoMain : GitRepo :=
  { remotes := Except.ok ["origin"]
    logRange := fun r =>
      if r = "origin/main..HEAD" then Except.ok [cNew, cMid]
      else Except.error "fatal: bad revision"
    branchesR := Except.ok ["origin/main"]
    logRecent := fun _ => Except.ok [cNew, cMid, cOld] }

/-- C1 witness: concrete repository with `origin/main` two commits behind
HEAD. -/
theorem resolveOriginMainWitness :
    resolve repoMain = [cNew, cMid] :=
  (resolveOriginMain repoMain ["origin"] [cNew, cMid] rfl (by decide) rfl).1

/-- C5: for a repository with zero configured remotes, both resolution
sites return exactly the `git log ['--oneline', '-10']` result (the
most recent at most 10 commits from HEAD), and the trace shows that no
branch comparison of any kind was attempted — so the outcome is
independent of whether any such comparison would succeed. -/
theorem resolveNoRemotes (g : GitRepo) (cs : List Commit)
    (hr : g.remotes = Except.ok []) (h10 : g.logRecent 10 = Except.ok cs) :
    resolve g = cs ∧ resolveTop g = cs ∧
    (resolveRun g).2 = [GitCall.getRemotes, GitCall.log ["--oneline", "-10"]] := by
  unfold resolve resolveTop resolveRun resolveTopRun resolveChain
  rw [hr, h10]
  simp

/-- Repository with no remotes; every branch comparison would fail. -/
def repoLocal : GitRepo :=
  { remotes := Except.ok []
    logRange := fun _ => Except.error "fatal: bad revision"
    branchesR := Except.error "fatal: no remotes"
    logRecent := fun _ => Except.ok [cNew, cMid, cOld] }

/-- C5 witness: remoteless repository with three local commits. -/
theorem resolveNoRemotesWitness :
    resolve repoLocal = [cNew, cMid, cOld] :=
  (resolveNoRemotes repoLocal [cNew, cMid, cOld] rfl rfl).1

/-- C6: for a repository with a remote where the `origin/main..HEAD`
query raises an error and the `origin/master..HEAD` query succeeds,
both resolution sites return exactly the latter query's commits, newest
first. -/
theorem resolveOriginMaster (g : GitRepo) (rs : List String) (cs : List Commit)
    (em : String)
    (hr : g.remotes = Except.ok rs) (hne : rs ≠ [])
    (hm : g.logRange "origin/main..HEAD" = Except.error em)
    (hms : g.logRange "origin/master..HEAD" = Except.ok cs) :
    resolve g = cs ∧ resolveTop g = cs := by
  have hlen : rs.length > 0 := by
    cases rs with
    | nil => exact absurd rfl hne
    | cons a as => simp
  unfold resolve resolveTop resolveRun resolveTopRun resolveChain
  rw [hr, hm, hms]
  simp [hlen]

/-- Repository matching the spec scenario: remotes `["origin"]`,
`origin/main` absent (its query errors), `origin/master` present, HEAD
3 commits ahead. -/
def repoMaster : GitRepo :=
  { remotes := Except.ok ["origin"]
    logRange := fun r =>
      if r = "origin/master..HEAD" then Except.ok [cNew, cMid, cOld]
      else Except.error "fatal: bad revision origin/main..HEAD"
    branchesR := Except.ok ["origin/master"]
    logRecent := fun _ => Except.ok [cNew, cMid, cOld] }

/-- C6 witness: the scenario repository yields exactly its 3 unpushed
commits, newest first. -/
theorem resolveOriginMasterWitness :
    resolve repoMaster = [cNew, cMid, cOld] :=
  (resolveOriginMaster repoMaster ["origin"] [cNew, cMid, cOld]
    "fatal: bad revision origin/main..HEAD" rfl (by decide) rfl rfl).1

/-- Repository with a remote where both `origin/main` and `origin/master`
queries error and the remote-branch listing succeeds but contains no
name including `origin/`. -/
def repoNoOriginBranch : GitRepo :=
  { remotes := Except.ok ["origin"]
    logRange := fun _ => Except.error "fatal: bad revision"
    branchesR := Except.ok ["upstream/dev"]
    logRecent := fun _ => Except.ok [cNew, cMid, cOld] }

/-- C2 counterexample: in this repository the claimed fallback to the
most recent at-most-10 local commits does not happen — even though that
query would succeed and return three commits, both resolution sites
return the empty sequence, because the found-no-branch path leaves the
commit list empty without running any further query. -/
theorem noOriginBranchCex :
    resolve repoNoOriginBranch = [] ∧
    resolveTop repoNoOriginBranch = [] ∧
    repoNoOriginBranch.logRecent 10 = Except.ok [cNew, cMid, cOld] ∧
    resolve repoNoOriginBranch ≠ [cNew, cMid, cOld] := by
  refine ⟨by decide, by decide, rfl, by decide⟩

/-- C2 amended: when the repository has a remote, the `origin/main` and
`origin/master` queries both error, and the remote-branch enumeration
succeeds but finds no branch whose name contains `origin/`, both
resolution sites return the empty sequence; the at-most-10-commit local
fallback runs only when the enumeration (or the comparison against the
found branch) itself errors. -/
theorem noOriginBranchEmpty (g : GitRepo) (rs bs : List String) (em ems : String)
    (hr : g.remotes = Except.ok rs) (hne : rs ≠ [])
    (hm : g.logRange "origin/main..HEAD" = Except.error em)
    (hms : g.logRange "origin/master..HEAD" = Except.error ems)
    (hb : g.branchesR = Except.ok bs)
    (hfind : bs.find? (fun b => includesSub b "origin/") = none) :
    resolve g = [] ∧ resolveTop g = [] ∧
    (resolveRun g).2 =
      [GitCall.getRemotes, GitCall.log ["origin/main..HEAD"],
       GitCall.log ["origin/master..HEAD"], GitCall.branch ["-r"]] := by
  have hlen : rs.length > 0 := by
    cases rs with
    | nil => exact absurd rfl hne
    | cons a as => simp
  unfold resolve resolveTop resolveRun resolveTopRun resolveChain
  rw [hr, hm, hms, hb]
  simp [hlen, hfind]

/-- C2 amended witness: the counterexample repository instantiates the
amended statement. -/
theorem noOriginBranchEmptyWitness :
    resolve repoNoOriginBranch = [] :=
  (noOriginBranchEmpty repoNoOriginBranch ["origin"] ["upstream/dev"]
    "fatal: bad revision" "fatal: bad revision" rfl (by decide) rfl rfl rfl
    (by decide)).1

/-- C7: when the resolution chain raises an error at the top level, the
root tree view falls back to `git log ['--oneline', '-5']`: if that
final query succeeds its commits are the result, and if it also fails
the result is the empty sequence — never a propagated exception.  The
element-expansion site likewise converts the same condition to an empty
result rather than an exception. -/
theorem topLevelErrorFallback (g : GitRepo) (e : String)
    (herr : (resolveChain g).1 = Except.error e) :
    resolve g = [] ∧
    (∀ cs, g.logRecent 5 = Except.ok cs → resolveTop g = cs) ∧
    (∀ e2, g.logRecent 5 = Except.error e2 → resolveTop g = []) := by
  unfold resolve resolveRun resolveTop resolveTopRun
  rcases hc : resolveChain g with ⟨res, t⟩
  rw [hc] at herr
  simp only at herr
  subst herr
  refine ⟨rfl, ?_, ?_⟩
  · intro cs h5
    rw [h5]
  · intro e2 h5
    rw [h5]

/-- Repository in which even `getRemotes` throws, so the whole chain
errors at the top level, while plain local log queries still succeed. -/
def repoBroken : GitRepo :=
  { remotes := Except.error "fatal: not a git repository"
    logRange := fun _ => Except.error "fatal: not a git repository"
    branchesR := Except.error "fatal: not a git repository"
    logRecent := fun _ => Except.ok [cNew, cMid, cOld] }

/-- C7 witness: on the broken repository the element site returns empty
and the root site falls back to the recent-5 query's commits. -/
theorem topLevelErrorFallbackWitness :
    resolve repoBroken = [] ∧ resolveTop repoBroken = [cNew, cMid, cOld] := by
  have h := topLevelErrorFallback repoBroken "fatal: not a git repository" rfl
  exact ⟨h.1, h.2.1 [cNew, cMid, cOld] rfl⟩

theorem chainTraceReadOnly (g : GitRepo) :
    (resolveChain g).2.all isReadOnly = true := by
  unfold resolveChain
  repeat' split <;> try rfl

theorem resolveRunTraceEq (g : GitRepo) :
    (resolveRun g).2 = (resolveChain g).2 := by
  unfold resolveRun
  rcases hc : resolveChain g with ⟨res, t⟩
  cases res <;> simp

/-- C8: every execution of either resolution site issues only read-only
git calls (`getRemotes`, `log`, `branch`) — never `add`, `reset`,
`commit`, `push`, or a `filter-branch` rewrite — so resolution leaves
repository state unchanged. -/
theorem resolverReadOnly (g : GitRepo) :
    (resolveRun g).2.all isReadOnly = true ∧
    (resolveTopRun g).2.all isReadOnly = true := by
  have hchain := chainTraceReadOnly g
  constructor
  · rw [resolveRunTraceEq]
    exact hchain
  · unfold resolveTopRun
    rcases hc : resolveChain g with ⟨res, t⟩
    rw [hc] at hchain
    simp only at hchain
    cases res with
    | ok cs => simpa using hchain
    | error e =>
      cases h5 : g.logRecent 5 <;>
        simp [List.all_append, hchain, isReadOnly]
